import Mathlib

/-!
Verification of the goldmarketcap frontend's core data-shaping logic.

The development shallowly embeds three pieces of the repository:

* the source aggregator and its descending sort
  (`frontend/components/LatestPricesTable.tsx`, `aggregatedSources`),
* the candlestick continuity adapter
  (`frontend/components/CandlestickChart.tsx`, `processCandles`),
* the per-candle geometry computation rendered atop a recharts bar
  (`CandlestickShape` in the recharts-based candlestick component).

JavaScript numbers that can be `NaN` (the result of `Number(...)` on a
non-numeric payload value) are modelled by `JNum`; finite values are exact
rationals.  Rational division in Lean is total with `x / 0 = 0`, so theorems
about concrete pixel coordinates carry a `barRange > 0` (or nonzero)
hypothesis wherever the source divides by `barRange`.
-/

/-- A JavaScript number as it flows through the aggregator: either a finite
value (modelled exactly as a rational) or `NaN`. -/
inductive JNum where
  | fin (q : ℚ)
  | nan
deriving DecidableEq, Repr

namespace JNum

/-- JS `+` : `NaN` propagates. -/
def add : JNum → JNum → JNum
  | fin a, fin b => fin (a + b)
  | _, _ => nan

/-- JS `-` : `NaN` propagates. -/
def sub : JNum → JNum → JNum
  | fin a, fin b => fin (a - b)
  | _, _ => nan

/-- JS `/ 2` (the aggregator only ever divides by the literal 2). -/
def halve : JNum → JNum
  | fin a => fin (a / 2)
  | nan => nan

/-- JS `x > 0`: every comparison with `NaN` is false. -/
def pos : JNum → Bool
  | fin a => decide (0 < a)
  | nan => false

/-- Whether the number is finite (not `NaN`). -/
def isFin : JNum → Bool
  | fin _ => true
  | nan => false

/-- The rational value of a finite `JNum` (junk value 0 on `NaN`;
only used under an `isFin` hypothesis). -/
def val : JNum → ℚ
  | fin q => q
  | nan => 0

end JNum

/-- The `price_direction` enum of a quote record: `"up" | "down" | "none"`. -/
inductive PriceDirection where
  | up
  | down
  | none
deriving DecidableEq, Repr

/-- One upstream quote record (`PriceRecord` in `frontend/lib/api`), with the
fields the aggregator reads.  `price` has already passed through `Number(...)`,
so a non-numeric payload price shows up here as `JNum.nan`.  Nullable /
possibly missing tracking fields are `Option`s. -/
structure PriceRecord where
  price : JNum
  created_at : String
  price_direction : Option PriceDirection
  rank_change : Option Int
  sparkline_7d : Option (List ℚ)
  change_1h : Option ℚ
  change_24h : Option ℚ
  change_7d : Option ℚ
deriving DecidableEq, Repr

/-- The per-source side map `{buy, sell, default}`; an absent side is `none`.
(`default` is a legal field name in Lean.) -/
structure SourceSides where
  buy : Option PriceRecord
  sell : Option PriceRecord
  default : Option PriceRecord
deriving DecidableEq, Repr

/-- The value found under a source key in the `latest_prices` payload: either a
proper side map or a malformed (null / non-object) entry, which the code guards
with `if (!sides || typeof sides !== 'object') return`. -/
inductive SidesVal where
  | malformed
  | obj (sides : SourceSides)
deriving DecidableEq, Repr

/-- One row of the aggregator's output (`AggregatedSource` in
`LatestPricesTable.tsx`). -/
structure AggregatedSource where
  source : String
  averagePrice : JNum
  buyPrice : Option JNum
  sellPrice : Option JNum
  hasSides : Bool
  timestamp : String
  priceDirection : PriceDirection
  rankChange : Int
  sparkline7d : List ℚ
  change1h : Option ℚ
  change24h : Option ℚ
  change7d : Option ℚ
deriving DecidableEq, Repr

/-- `buyRecord || sellRecord || defaultRecord`: the record the tracking
annotations (and the timestamp) are taken from. -/
def trackingRecord (sides : SourceSides) : Option PriceRecord :=
  sides.buy <|> sides.sell <|> sides.default

/-- The body of the `Object.entries(data.latest_prices).forEach` loop in
`aggregatedSources`: builds the summary row for one source, or `none` when the
entry is skipped (malformed side map, no non-null side, or the final
unreachable `else return`). -/
def buildSource (source : String) (sv : SidesVal) : Option AggregatedSource :=
  match sv with
  | .malformed => none
  | .obj sides =>
    -- `sideEntries.length === 0` after filtering out null records
    if sides.buy.isNone && sides.sell.isNone && sides.default.isNone then none
    else
      let tracking := trackingRecord sides
      let timestamp := (tracking.map fun r => r.created_at).getD ""
      let priceDirection := (tracking.bind fun r => r.price_direction).getD PriceDirection.none
      let rankChange := (tracking.bind fun r => r.rank_change).getD 0
      let sparkline7d := (tracking.bind fun r => r.sparkline_7d).getD []
      let change1h := tracking.bind fun r => r.change_1h
      let change24h := tracking.bind fun r => r.change_24h
      let change7d := tracking.bind fun r => r.change_7d
      let mk := fun (averagePrice : JNum) (hasSides : Bool)
          (buyPrice sellPrice : Option JNum) =>
        ({ source, averagePrice, buyPrice, sellPrice, hasSides, timestamp,
           priceDirection, rankChange, sparkline7d,
           change1h, change24h, change7d } : AggregatedSource)
      match sides.buy, sides.sell with
      | some buyRecord, some sellRecord =>
        -- has buy/sell sides: average the two
        some (mk ((buyRecord.price.add sellRecord.price).halve) true
          (some buyRecord.price) (some sellRecord.price))
      | _, _ =>
        match sides.default with
        | some defaultRecord =>
          -- no sides: use the default price
          some (mk defaultRecord.price false Option.none Option.none)
        | Option.none =>
          match sides.buy with
          | some buyRecord =>
            some (mk buyRecord.price true (some buyRecord.price) Option.none)
          | Option.none =>
            match sides.sell with
            | some sellRecord =>
              some (mk sellRecord.price true Option.none (some sellRecord.price))
            | Option.none => none

/-- The sort comparator `(a, b) => b.averagePrice - a.averagePrice`, turned
into the "keep `a` before `b`" predicate of a stable sort: per the ECMAScript
`SortCompare` spec, `a` stays before `b` unless the comparator returns a value
greater than zero (a `NaN` comparator result is treated as 0). -/
def lePrice (a b : AggregatedSource) : Bool :=
  !(b.averagePrice.sub a.averagePrice).pos

/-- `sources.sort((a, b) => b.averagePrice - a.averagePrice)`:
JavaScript's sort is required to be stable, so it is modelled by the stable
`List.mergeSort` with the comparator-induced predicate. -/
def sortSources (sources : List AggregatedSource) : List AggregatedSource :=
  sources.mergeSort lePrice

/-- The `aggregatedSources` memo of `LatestPricesTable.tsx`: walk the entries
of `latest_prices` (modelled as an association list in object-key order),
build a summary per source, and sort by price descending.  Every step is
total, so the surrounding `try/catch` (which would return `[]`) is dead. -/
def aggregatedSources (latest_prices : List (String × SidesVal)) :
    List AggregatedSource :=
  sortSources (latest_prices.filterMap fun p => buildSource p.1 p.2)

/-- The rendered table rows: `const rank = index + 1` over the sorted output. -/
def rankedSources (sources : List AggregatedSource) :
    List (Nat × AggregatedSource) :=
  (sortSources sources).enum.map fun p => (p.1 + 1, p.2)

/-! ## The continuity adapter (`processCandles` in `CandlestickChart.tsx`) -/

/-- One candle as handed to the lightweight-charts series: the `bucket`
timestamp already converted to Unix seconds, and the four OHLC values already
converted from their string encoding by `Number(...)`.
(`open` is reserved in Lean, hence `open_`.) -/
structure ChartCandle where
  time : Int
  open_ : ℚ
  high : ℚ
  low : ℚ
  close : ℚ
deriving DecidableEq, Repr

/-- The `i > 0` part of the `processCandles` loop: each candle's open is
overridden with the previous *processed* candle's close (threaded through as
`prevClose`), and high/low are widened to keep the open inside the range. -/
def processFrom (prevClose : ℚ) : List ChartCandle → List ChartCandle
  | [] => []
  | c :: cs =>
    let o := prevClose
    let h := max c.high o
    let l := min c.low o
    let c' : ChartCandle :=
      { time := c.time, open_ := o, high := h, low := l, close := c.close }
    c' :: processFrom c'.close cs

/-- `processCandles`: candle 0 is pushed unchanged, every later candle goes
through the continuity override. -/
def processCandles : List ChartCandle → List ChartCandle
  | [] => []
  | c :: cs => c :: processFrom c.close cs

/-! ## The candlestick geometry (`CandlestickShape` in the recharts chart) -/

/-- The `type` tag of a candle payload: which series it belongs to. -/
inductive CandleType where
  | buy
  | sell
  | dflt
deriving DecidableEq, Repr

/-- The fields of the recharts `payload` that `CandlestickShape` reads. -/
structure CandlePayload where
  open_ : ℚ
  close : ℚ
  high : ℚ
  low : ℚ
  isGreen : Bool
  ctype : CandleType
  domainMin : Option ℚ
  domainMax : Option ℚ
deriving DecidableEq, Repr

/-- The body/wick colour pair selected from the candle's type and direction. -/
def candleColors (t : CandleType) (isGreen : Bool) : String × String :=
  match t with
  | .buy => if isGreen then ("#26a69a", "#26a69a") else ("#ef5350", "#ef5350")
  | .sell => if isGreen then ("#ffa726", "#ffa726") else ("#ef5350", "#ef5350")
  | .dflt => if isGreen then ("#26a69a", "#26a69a") else ("#ef5350", "#ef5350")

/-- One rendered wick `<line>`. -/
structure WickLine where
  x1 : ℚ
  y1 : ℚ
  x2 : ℚ
  y2 : ℚ
  stroke : String
deriving DecidableEq, Repr

/-- The rendered body `<rect>`. -/
structure BodyRect where
  x : ℚ
  y : ℚ
  width : ℚ
  height : ℚ
  fill : String
deriving DecidableEq, Repr

/-- The `<g>` group emitted for one candle: optional wicks plus the body. -/
structure CandleGeometry where
  upperWick : Option WickLine
  lowerWick : Option WickLine
  body : BodyRect
deriving DecidableEq, Repr

/-- The linear interpolation of the shape:
`valueY = y + (height * (high - value) / barRange)`. -/
def valueY (y height high barRange v : ℚ) : ℚ :=
  y + height * (high - v) / barRange

/-- `CandlestickShape`: computes the wick/body geometry of one candle rendered
atop a bar that spans from the axis domain minimum up to `high`.  Returns
`none` exactly where the component returns `null`: a missing payload, or a
zero-range candle (`high - low === 0`).  Note the code divides by
`barRange = high - domainMin` without guarding it; in this rational model
`x / 0 = 0` where JavaScript would produce infinities. -/
def CandlestickShape (x y width height : ℚ) (payload : Option CandlePayload) :
    Option CandleGeometry :=
  match payload with
  | none => none
  | some p =>
    let colors := candleColors p.ctype p.isGreen
    let bodyColor := colors.1
    let wickColor := colors.2
    let range := p.high - p.low
    if range = 0 then none
    else
      let domainBase := p.domainMin.getD 0
      let barRange := p.high - domainBase
      let lowY := valueY y height p.high barRange p.low
      let openY := valueY y height p.high barRange p.open_
      let closeY := valueY y height p.high barRange p.close
      let bodyTopY := min openY closeY
      let bodyBottomY := max openY closeY
      let bodyHeightPx := max 2 |closeY - openY|
      let candleWidth := max 4 (width * (1 / 2))
      let candleX := x + (width - candleWidth) / 2
      let centerX := x + width / 2
      some
        { upperWick :=
            if openY < y ∨ closeY < y then
              some { x1 := centerX, y1 := y, x2 := centerX, y2 := bodyTopY,
                     stroke := wickColor }
            else none,
          lowerWick :=
            if openY > lowY ∨ closeY > lowY then
              some { x1 := centerX, y1 := bodyBottomY, x2 := centerX,
                     y2 := lowY, stroke := wickColor }
            else none,
          body := { x := candleX, y := bodyTopY, width := candleWidth,
                    height := bodyHeightPx, fill := bodyColor } }

/-! ## Theorems -/

/-- Claim C1: for every source in the input quote map, the aggregator computes
the unified price and `hasSides` flag by the priority rules: both buy and sell
present gives `unifiedPrice = (buy.price + sell.price) / 2` with
`hasSides = true` and both side prices populated; else a present default record
gives `unifiedPrice = default.price` with `hasSides = false`; else only buy
gives `unifiedPrice = buyPrice = buy.price` with `hasSides = true`; else only
sell symmetrically; a source with all sides null is absent from the output. -/
theorem buildSource_priority (name : String) (sides : SourceSides) :
    (∀ b s qb qs, sides.buy = some b → sides.sell = some s →
      b.price = JNum.fin qb → s.price = JNum.fin qs →
      ∃ out, buildSource name (.obj sides) = some out ∧
        out.averagePrice = JNum.fin ((qb + qs) / 2) ∧
        out.hasSides = true ∧
        out.buyPrice = some (JNum.fin qb) ∧ out.sellPrice = some (JNum.fin qs))
    ∧ (∀ d, sides.default = some d → (sides.buy = none ∨ sides.sell = none) →
      ∃ out, buildSource name (.obj sides) = some out ∧
        out.averagePrice = d.price ∧ out.hasSides = false)
    ∧ (∀ b, sides.buy = some b → sides.sell = none → sides.default = none →
      ∃ out, buildSource name (.obj sides) = some out ∧
        out.averagePrice = b.price ∧ out.buyPrice = some b.price ∧
        out.hasSides = true)
    ∧ (∀ s, sides.sell = some s → sides.buy = none → sides.default = none →
      ∃ out, buildSource name (.obj sides) = some out ∧
        out.averagePrice = s.price ∧ out.sellPrice = some s.price ∧
        out.hasSides = true)
    ∧ (sides.buy = none → sides.sell = none → sides.default = none →
      buildSource name (.obj sides) = none) := by
  obtain ⟨b?, s?, d?⟩ := sides
  refine ⟨?_, ?_, ?_, ?_, ?_⟩
  · rintro b s qb qs rfl rfl hb hs
    refine ⟨_, rfl, ?_, rfl, ?_, ?_⟩
    · simp [JNum.add, JNum.halve, hb, hs]
    · simp [hb]
    · simp [hs]
  · rintro d rfl hcase
    rcases hcase with rfl | rfl
    · cases s? <;> exact ⟨_, rfl, rfl, rfl⟩
    · cases b? <;> exact ⟨_, rfl, rfl, rfl⟩
  · rintro b rfl rfl rfl
    exact ⟨_, rfl, rfl, rfl, rfl⟩
  · rintro s rfl rfl rfl
    exact ⟨_, rfl, rfl, rfl, rfl⟩
  · rintro rfl rfl rfl
    rfl

/-- A concrete quote record with the given price, used as a test fixture by
the witnesses below. -/
def sampleRecord (p : JNum) : PriceRecord :=
  { price := p, created_at := "t", price_direction := some .up,
    rank_change := some 1, sparkline_7d := some [1], change_1h := none,
    change_24h := none, change_7d := none }

/-- Witness for C1, at the spec's worked example: `milli` with buy 1000 and
sell 1010 averages to 1005 with sides. -/
theorem buildSource_priority_witness :
    (∃ out, buildSource "milli" (.obj
      { buy := some (sampleRecord (JNum.fin 1000)),
        sell := some (sampleRecord (JNum.fin 1010)),
        default := none }) = some out ∧
      out.averagePrice = JNum.fin ((1000 + 1010) / 2) ∧
      out.hasSides = true ∧
      out.buyPrice = some (JNum.fin 1000) ∧
      out.sellPrice = some (JNum.fin 1010)) :=
  (buildSource_priority "milli" _).1 _ _ 1000 1010 rfl rfl rfl rfl

theorem length_processFrom (p : ℚ) (l : List ChartCandle) :
    (processFrom p l).length = l.length := by
  induction l generalizing p with
  | nil => rfl
  | cons c cs ih => simp [processFrom, ih]

theorem length_processCandles (l : List ChartCandle) :
    (processCandles l).length = l.length := by
  cases l with
  | nil => rfl
  | cons c cs => simp [processCandles, length_processFrom]

/-- Pointwise facts about `processFrom` that do not involve the previous
candle: timestamps and closes are passed through, and the adjusted high/low
are exactly the input high/low widened by the overridden open. -/
theorem processFrom_fields (p : ℚ) (l : List ChartCandle) (i : Nat)
    (cin : ChartCandle) (h : l[i]? = some cin) :
    ∃ cout, (processFrom p l)[i]? = some cout ∧
      cout.time = cin.time ∧ cout.close = cin.close ∧
      cout.high = max cin.high cout.open_ ∧
      cout.low = min cin.low cout.open_ := by
  induction l generalizing p i with
  | nil => simp at h
  | cons c cs ih =>
    cases i with
    | zero =>
      simp only [List.getElem?_cons_zero, Option.some.injEq] at h
      subst h
      exact ⟨{ time := c.time, open_ := p, high := max c.high p,
               low := min c.low p, close := c.close },
        by simp [processFrom], rfl, rfl, rfl, rfl⟩
    | succ j =>
      simp only [List.getElem?_cons_succ] at h
      simpa [processFrom] using ih c.close j h

/-- The head of `processFrom p l` has its open overridden to `p`. -/
theorem processFrom_head_open (p : ℚ) (c : ChartCandle) (cs : List ChartCandle) :
    ∃ cout, (processFrom p (c :: cs))[0]? = some cout ∧ cout.open_ = p :=
  ⟨{ time := c.time, open_ := p, high := max c.high p,
     low := min c.low p, close := c.close },
    by simp [processFrom], rfl⟩

/-- Consecutive candles in `processFrom` output are linked: each open equals
the previous adjusted close. -/
theorem processFrom_chain (p : ℚ) (l : List ChartCandle) (i : Nat)
    (prev cur : ChartCandle)
    (hp : (processFrom p l)[i]? = some prev)
    (hc : (processFrom p l)[i + 1]? = some cur) :
    cur.open_ = prev.close := by
  induction l generalizing p i with
  | nil => simp [processFrom] at hp
  | cons c cs ih =>
    cases i with
    | zero =>
      simp only [processFrom, List.getElem?_cons_zero, Option.some.injEq] at hp
      simp only [processFrom, List.getElem?_cons_succ] at hc
      cases cs with
      | nil => simp [processFrom] at hc
      | cons c1 cs1 =>
        obtain ⟨cout, hq, hopen⟩ := processFrom_head_open c.close c1 cs1
        rw [hq] at hc
        cases hc
        rw [hopen, ← hp]
    | succ j =>
      simp only [processFrom, List.getElem?_cons_succ] at hp hc
      exact ih c.close j hp hc

/-- Every candle emitted by `processFrom` satisfies `low ≤ open ≤ high`,
with no assumption on the input: the widening enforces it. -/
theorem processFrom_valid (p : ℚ) (l : List ChartCandle) :
    ∀ c ∈ processFrom p l, c.low ≤ c.open_ ∧ c.open_ ≤ c.high := by
  induction l generalizing p with
  | nil => simp [processFrom]
  | cons c cs ih =>
    intro d hd
    simp only [processFrom, List.mem_cons] at hd
    rcases hd with rfl | hd
    · exact ⟨min_le_right _ _, le_max_right _ _⟩
    · exact ih c.close d hd

/-- Claim C3: on a chronologically ordered candle sequence (whose candles
satisfy the OHLC data-model invariant), the continuity adapter leaves candle 0
unchanged; for each candle `i > 0` it sets the open to the *adjusted* previous
candle's close and widens the high (resp. low) of the input candle to
`max high open` (resp. `min low open`); it never alters any close; and every
output candle satisfies `low ≤ open ≤ high`. -/
theorem processCandles_continuity (l : List ChartCandle)
    (hvalid : ∀ c ∈ l, c.low ≤ min c.open_ c.close ∧ max c.open_ c.close ≤ c.high) :
    (processCandles l).length = l.length
    ∧ (processCandles l)[0]? = l[0]?
    ∧ (∀ i, ∀ cin prev cur, l[i + 1]? = some cin →
        (processCandles l)[i]? = some prev →
        (processCandles l)[i + 1]? = some cur →
        cur.open_ = prev.close ∧
        cur.high = max cin.high cur.open_ ∧
        cur.low = min cin.low cur.open_ ∧
        cur.close = cin.close ∧ cur.time = cin.time)
    ∧ (∀ c ∈ processCandles l, c.low ≤ c.open_ ∧ c.open_ ≤ c.high) := by
  cases l with
  | nil => exact ⟨rfl, rfl, by intro i cin prev cur h; simp at h, by simp [processCandles]⟩
  | cons c cs =>
    refine ⟨length_processCandles _, by simp [processCandles], ?_, ?_⟩
    · intro i cin prev cur hin hprev hcur
      simp only [processCandles, List.getElem?_cons_succ] at hin hcur
      obtain ⟨cout, hq, ht, hcl, hh, hlo⟩ := processFrom_fields c.close cs i cin hin
      have hlink : cur.open_ = prev.close := by
        cases i with
        | zero =>
          simp only [processCandles, List.getElem?_cons_zero,
            Option.some.injEq] at hprev
          cases cs with
          | nil => simp [processFrom] at hcur
          | cons c1 cs1 =>
            obtain ⟨cout1, hq1, hopen1⟩ := processFrom_head_open c.close c1 cs1
            rw [hq1] at hcur
            cases hcur
            rw [hopen1, ← hprev]
        | succ j =>
          simp only [processCandles, List.getElem?_cons_succ] at hprev
          exact processFrom_chain c.close cs j prev cur hprev hcur
      rw [hq] at hcur
      cases hcur
      exact ⟨hlink, hh, hlo, hcl, ht⟩
    · intro d hd
      simp only [processCandles, List.mem_cons] at hd
      rcases hd with rfl | hd
      · obtain ⟨h1, h2⟩ := hvalid d (List.mem_cons_self d cs)
        exact ⟨le_trans h1 (min_le_left _ _), le_trans (le_max_left _ _) h2⟩
      · exact processFrom_valid c.close cs d hd

/-- Witness for C3, at the spec's worked example: candles
`[{open 10, high 12, low 9, close 11}, {open 5, high 13, low 4, close 6}]`
yield, after continuity adjustment, a second candle
`{open 11, high 13, low 4, close 6}`. -/
theorem processCandles_continuity_witness :
    (∀ c ∈ [(⟨0, 10, 12, 9, 11⟩ : ChartCandle), ⟨1, 5, 13, 4, 6⟩],
      c.low ≤ min c.open_ c.close ∧ max c.open_ c.close ≤ c.high)
    ∧ ((processCandles [(⟨0, 10, 12, 9, 11⟩ : ChartCandle), ⟨1, 5, 13, 4, 6⟩]).length = 2
    ∧ (processCandles [(⟨0, 10, 12, 9, 11⟩ : ChartCandle), ⟨1, 5, 13, 4, 6⟩])[0]?
        = [(⟨0, 10, 12, 9, 11⟩ : ChartCandle), ⟨1, 5, 13, 4, 6⟩][0]?
    ∧ (∀ i, ∀ cin prev cur,
        [(⟨0, 10, 12, 9, 11⟩ : ChartCandle), ⟨1, 5, 13, 4, 6⟩][i + 1]? = some cin →
        (processCandles [(⟨0, 10, 12, 9, 11⟩ : ChartCandle), ⟨1, 5, 13, 4, 6⟩])[i]? = some prev →
        (processCandles [(⟨0, 10, 12, 9, 11⟩ : ChartCandle), ⟨1, 5, 13, 4, 6⟩])[i + 1]? = some cur →
        cur.open_ = prev.close ∧
        cur.high = max cin.high cur.open_ ∧
        cur.low = min cin.low cur.open_ ∧
        cur.close = cin.close ∧ cur.time = cin.time)
    ∧ (∀ c ∈ processCandles [(⟨0, 10, 12, 9, 11⟩ : ChartCandle), ⟨1, 5, 13, 4, 6⟩],
        c.low ≤ c.open_ ∧ c.open_ ≤ c.high)) := by
  refine ⟨by decide, ?_⟩
  have h := processCandles_continuity
    [(⟨0, 10, 12, 9, 11⟩ : ChartCandle), ⟨1, 5, 13, 4, 6⟩] (by decide)
  exact ⟨by decide, h.2.1, h.2.2.1, h.2.2.2⟩

/-- Reapplying the continuity override with the same previous close is the
identity: the open is already the previous close and the high/low were
already widened. -/
theorem processFrom_idem (p : ℚ) (l : List ChartCandle) :
    processFrom p (processFrom p l) = processFrom p l := by
  induction l generalizing p with
  | nil => rfl
  | cons c cs ih =>
    simp only [processFrom]
    congr 1
    · simp [ChartCandle.mk.injEq, max_assoc, min_assoc]
    · exact ih c.close

/-- Claim C9: the continuity adjustment is idempotent — applying
`processCandles` to its own output returns that output unchanged. -/
theorem processCandles_idempotent (l : List ChartCandle) :
    processCandles (processCandles l) = processCandles l := by
  cases l with
  | nil => rfl
  | cons c cs =>
    simp only [processCandles]
    exact congrArg (c :: ·) (processFrom_idem c.close cs)

/-- A candle whose bar range `high - domainMin` is zero (the axis minimum
sits at the candle's high) while its own range `high - low` is nonzero. -/
def zeroBarRangePayload : CandlePayload :=
  { open_ := 3 / 2, close := 9 / 5, high := 2, low := 1, isGreen := true,
    ctype := .dflt, domainMin := some 2, domainMax := some 10 }

/-- Claim C4 (counterexample): a candle with bar range
`high - domainMin ≤ 0` is *not* rendered as nothing — the shape still emits
wick/body geometry (dividing by the zero bar range), because the code's only
degenerate-candle guard tests the candle's own range `high - low`. -/
theorem CandlestickShape_barRange_not_guarded :
    zeroBarRangePayload.high - zeroBarRangePayload.domainMin.getD 0 ≤ 0 ∧
    (CandlestickShape 0 0 10 100 (some zeroBarRangePayload)).isSome = true := by
  constructor
  · norm_num [zeroBarRangePayload]
  · norm_num [CandlestickShape, zeroBarRangePayload, valueY]

/-- Claim C4 (amended): the geometry computation renders nothing exactly when
the candle's own range `high - low` is zero; the guard does not test
`barRange = high - domainMin`, so a candle with `high ≤ domainMin` but
`high ≠ low` still produces geometry. -/
theorem CandlestickShape_none_iff (x y width height : ℚ) (p : CandlePayload) :
    CandlestickShape x y width height (some p) = none ↔ p.high - p.low = 0 := by
  by_cases h : p.high - p.low = 0 <;> simp [CandlestickShape, h]

/-- A perfectly ordinary valid candle (`low < open < close < high`), rendered
with bar top `y = 0`, bar height 8 and axis minimum 0. -/
def plainCandlePayload : CandlePayload :=
  { open_ := 5, close := 6, high := 8, low := 4, isGreen := true,
    ctype := .dflt, domainMin := some 0, domainMax := some 10 }

/-- Claim C5 (code bug): for this valid candle the spec's wick conditions hold
— the body top `min (openY, closeY) = 2` is strictly below the bar top `y = 0`
in screen terms (`> barTop`), and the body bottom `max (openY, closeY) = 3` is
strictly above `lowY = 4` (`< lowY`) — yet the shape draws neither wick: the
code's conditions `openY < y || closeY < y` and `openY > lowY || closeY > lowY`
are inverted, so no wick is ever drawn for a candle whose open and close lie
inside `[low, high]`. -/
theorem CandlestickShape_wicks_never_drawn :
    (CandlestickShape 0 0 10 8 (some plainCandlePayload)).map
        (fun g => (g.upperWick.isSome, g.lowerWick.isSome)) = some (false, false)
    ∧ 0 < min (valueY 0 8 8 8 plainCandlePayload.open_)
        (valueY 0 8 8 8 plainCandlePayload.close)
    ∧ max (valueY 0 8 8 8 plainCandlePayload.open_)
        (valueY 0 8 8 8 plainCandlePayload.close)
      < valueY 0 8 8 8 plainCandlePayload.low := by
  refine ⟨?_, ?_, ?_⟩
  · norm_num [CandlestickShape, plainCandlePayload, valueY]
  · norm_num [valueY, plainCandlePayload, lt_min_iff]
  · norm_num [valueY, plainCandlePayload, max_lt_iff]

/-- Claim C6: for every valid candle (`low ≤ open ≤ high`, `low ≤ close ≤ high`)
with positive bar range and a nonnegative pixel bar height, each value `v`
maps to `barTop + barHeight * (high - v) / barRange`, and the screen
coordinates are ordered `wickTopY ≤ bodyTopY ≤ bodyBottomY ≤ wickBottomY`
(the wick top being the bar top `y` and the wick bottom `lowY`), with the
rendered body height at least 2 pixels; when the zero-range guard passes
(`high ≠ low`), the emitted geometry realises exactly these coordinates. -/
theorem CandlestickShape_geometry (x y width height : ℚ) (p : CandlePayload)
    (hlo : p.low ≤ p.open_) (hoh : p.open_ ≤ p.high)
    (hlc : p.low ≤ p.close) (hch : p.close ≤ p.high)
    (hbar : 0 < p.high - p.domainMin.getD 0)
    (hheight : 0 ≤ height) :
    (∀ v, valueY y height p.high (p.high - p.domainMin.getD 0) v
        = y + height * (p.high - v) / (p.high - p.domainMin.getD 0))
    ∧ y ≤ min (valueY y height p.high (p.high - p.domainMin.getD 0) p.open_)
        (valueY y height p.high (p.high - p.domainMin.getD 0) p.close)
    ∧ max (valueY y height p.high (p.high - p.domainMin.getD 0) p.open_)
        (valueY y height p.high (p.high - p.domainMin.getD 0) p.close)
      ≤ valueY y height p.high (p.high - p.domainMin.getD 0) p.low
    ∧ (p.high - p.low ≠ 0 →
      ∃ g, CandlestickShape x y width height (some p) = some g ∧
        g.body.y = min (valueY y height p.high (p.high - p.domainMin.getD 0) p.open_)
          (valueY y height p.high (p.high - p.domainMin.getD 0) p.close) ∧
        g.body.height
          = max 2 |valueY y height p.high (p.high - p.domainMin.getD 0) p.close
              - valueY y height p.high (p.high - p.domainMin.getD 0) p.open_| ∧
        2 ≤ g.body.height ∧
        (∀ w, g.upperWick = some w → w.y1 = y ∧
          w.y2 = min (valueY y height p.high (p.high - p.domainMin.getD 0) p.open_)
            (valueY y height p.high (p.high - p.domainMin.getD 0) p.close)) ∧
        (∀ w, g.lowerWick = some w →
          w.y1 = max (valueY y height p.high (p.high - p.domainMin.getD 0) p.open_)
            (valueY y height p.high (p.high - p.domainMin.getD 0) p.close) ∧
          w.y2 = valueY y height p.high (p.high - p.domainMin.getD 0) p.low)) := by
  have hmono : ∀ u v : ℚ, v ≤ u →
      valueY y height p.high (p.high - p.domainMin.getD 0) u
        ≤ valueY y height p.high (p.high - p.domainMin.getD 0) v := by
    intro u v huv
    unfold valueY
    apply add_le_add_left
    rw [div_le_div_iff_of_pos_right hbar]
    exact mul_le_mul_of_nonneg_left (by linarith) hheight
  have htop : ∀ v : ℚ, v ≤ p.high →
      y ≤ valueY y height p.high (p.high - p.domainMin.getD 0) v := by
    intro v hv
    unfold valueY
    have : 0 ≤ height * (p.high - v) / (p.high - p.domainMin.getD 0) :=
      div_nonneg (mul_nonneg hheight (by linarith)) hbar.le
    linarith
  refine ⟨fun v => rfl, ?_, ?_, ?_⟩
  · exact le_min (htop _ hoh) (htop _ hch)
  · exact max_le (hmono _ _ hlo) (hmono _ _ hlc)
  · intro hr
    have hup : ¬(valueY y height p.high (p.high - p.domainMin.getD 0) p.open_ < y
        ∨ valueY y height p.high (p.high - p.domainMin.getD 0) p.close < y) := by
      push_neg
      exact ⟨htop _ hoh, htop _ hch⟩
    have hlow : ¬(valueY y height p.high (p.high - p.domainMin.getD 0) p.open_
          > valueY y height p.high (p.high - p.domainMin.getD 0) p.low
        ∨ valueY y height p.high (p.high - p.domainMin.getD 0) p.close
          > valueY y height p.high (p.high - p.domainMin.getD 0) p.low) := by
      push_neg
      exact ⟨hmono _ _ hlo, hmono _ _ hlc⟩
    simp only [CandlestickShape]
    rw [if_neg hr, if_neg hup, if_neg hlow]
    refine ⟨_, rfl, rfl, rfl, le_max_left _ _, ?_, ?_⟩
    · exact fun w hw => Option.noConfusion hw
    · exact fun w hw => Option.noConfusion hw

/-- Witness for C6, at the valid candle `{open 5, close 6, high 8, low 4}`
with bar top 0, bar height 8 and axis minimum 0: the geometry is emitted and
its body is at least 2 pixels tall. -/
theorem CandlestickShape_geometry_witness :
    plainCandlePayload.low ≤ plainCandlePayload.open_
    ∧ plainCandlePayload.open_ ≤ plainCandlePayload.high
    ∧ plainCandlePayload.low ≤ plainCandlePayload.close
    ∧ plainCandlePayload.close ≤ plainCandlePayload.high
    ∧ 0 < plainCandlePayload.high - plainCandlePayload.domainMin.getD 0
    ∧ (0 : ℚ) ≤ 8
    ∧ (∃ g, CandlestickShape 0 0 10 8 (some plainCandlePayload) = some g ∧
        2 ≤ g.body.height) := by
  refine ⟨by norm_num [plainCandlePayload], by norm_num [plainCandlePayload],
    by norm_num [plainCandlePayload], by norm_num [plainCandlePayload],
    by norm_num [plainCandlePayload], by norm_num, ?_⟩
  obtain ⟨-, -, -, h⟩ := CandlestickShape_geometry 0 0 10 8 plainCandlePayload
    (by norm_num [plainCandlePayload]) (by norm_num [plainCandlePayload])
    (by norm_num [plainCandlePayload]) (by norm_num [plainCandlePayload])
    (by norm_num [plainCandlePayload]) (by norm_num)
  obtain ⟨g, hg, -, -, hh, -⟩ := h (by norm_num [plainCandlePayload])
  exact ⟨g, hg, hh⟩

/-- Every emitted summary takes its timestamp and all annotation fields from
`trackingRecord` (the first present record in buy, sell, default order), with
the `||`-defaults of the source applied. -/
theorem buildSource_tracking (name : String) (sides : SourceSides)
    (out : AggregatedSource) (h : buildSource name (.obj sides) = some out) :
    ∃ r, trackingRecord sides = some r ∧
      out.priceDirection = r.price_direction.getD PriceDirection.none ∧
      out.rankChange = r.rank_change.getD 0 ∧
      out.sparkline7d = r.sparkline_7d.getD [] ∧
      out.change1h = r.change_1h ∧
      out.change24h = r.change_24h ∧
      out.change7d = r.change_7d ∧
      out.timestamp = r.created_at := by
  obtain ⟨b, s, d⟩ := sides
  rcases b with _ | rb <;> rcases s with _ | rs <;> rcases d with _ | rd <;>
    simp_all [buildSource, trackingRecord] <;>
    (subst h; simp)

/-- A buy-side record with price 100 and upward direction. -/
def buyUpRecord : PriceRecord :=
  { price := JNum.fin 100, created_at := "t", price_direction := some .up,
    rank_change := some 3, sparkline_7d := some [1, 2],
    change_1h := some 1, change_24h := none, change_7d := none }

/-- A default-side record with price 500 and downward direction. -/
def defaultDownRecord : PriceRecord :=
  { price := JNum.fin 500, created_at := "t", price_direction := some .down,
    rank_change := some (-2), sparkline_7d := some [5, 4],
    change_1h := some (-1), change_24h := none, change_7d := none }

/-- A side map with a buy record and a default record but no sell record:
the priority rules take the unified price from `default`, but the tracking
annotations from `buy`. -/
def buyAndDefaultSides : SourceSides :=
  { buy := some buyUpRecord, sell := none, default := some defaultDownRecord }

/-- Claim C8 (counterexample): when buy and default are present without sell,
the unified price is supplied by the default record (500), but the direction
in the summary is the buy record's "up", not the price-supplying record's
"down" — so the annotations do not come from the side record that supplied the
unified price. -/
theorem buildSource_annotation_mismatch :
    (buildSource "x" (.obj buyAndDefaultSides)).map
      (fun o => (o.averagePrice, o.priceDirection))
      = some (JNum.fin 500, PriceDirection.up)
    ∧ buyAndDefaultSides.default = some defaultDownRecord
    ∧ defaultDownRecord.price = JNum.fin 500
    ∧ defaultDownRecord.price_direction = some PriceDirection.down
    ∧ PriceDirection.up ≠ PriceDirection.down := by
  refine ⟨rfl, rfl, rfl, rfl, by decide⟩

/-- Claim C8 (amended): the direction, rank-change, sparkline, and
percent-change fields of a summary equal, unchanged, the corresponding fields
of the *first present* side record in the fixed order buy, else sell, else
default (which is the record that supplied the unified price except when buy
and default are present without sell); the aggregator never recomputes the
direction from price deltas. -/
theorem buildSource_annotations_passthrough (name : String)
    (sides : SourceSides) (out : AggregatedSource) (r : PriceRecord)
    (dir : PriceDirection) (n : Int) (sp : List ℚ)
    (h : buildSource name (.obj sides) = some out)
    (hr : trackingRecord sides = some r)
    (hd : r.price_direction = some dir) (hrc : r.rank_change = some n)
    (hsp : r.sparkline_7d = some sp) :
    out.priceDirection = dir ∧ out.rankChange = n ∧ out.sparkline7d = sp ∧
    out.change1h = r.change_1h ∧ out.change24h = r.change_24h ∧
    out.change7d = r.change_7d := by
  obtain ⟨r', hr', h1, h2, h3, h4, h5, h6, -⟩ :=
    buildSource_tracking name sides out h
  rw [hr] at hr'
  cases hr'
  simp [h1, h2, h3, h4, h5, h6, hd, hrc, hsp]

/-- Witness for C8's amended theorem, at the buy+default side map: the summary
carries the buy record's direction "up", rank change 3 and sparkline. -/
theorem buildSource_annotations_passthrough_witness :
    trackingRecord buyAndDefaultSides = some buyUpRecord ∧
    buyUpRecord.price_direction = some PriceDirection.up ∧
    (∃ out, buildSource "x" (.obj buyAndDefaultSides) = some out ∧
      out.priceDirection = PriceDirection.up ∧ out.rankChange = 3 ∧
      out.sparkline7d = [1, 2] ∧ out.change1h = buyUpRecord.change_1h ∧
      out.change24h = buyUpRecord.change_24h ∧
      out.change7d = buyUpRecord.change_7d) := by
  refine ⟨rfl, rfl, _, rfl, ?_⟩
  exact buildSource_annotations_passthrough "x" buyAndDefaultSides _
    buyUpRecord PriceDirection.up 3 [1, 2] rfl rfl rfl rfl rfl

/-- A record whose tracking fields are all null. -/
def bareRecord : PriceRecord :=
  { price := JNum.fin 7, created_at := "t", price_direction := none,
    rank_change := none, sparkline_7d := none, change_1h := none,
    change_24h := none, change_7d := none }

/-- A side map holding only the bare buy record. -/
def bareBuySides : SourceSides :=
  { buy := some bareRecord, sell := none, default := none }

/-- Claim C10: when the side record supplying a source's annotations has null
(or missing) tracking fields, the aggregator substitutes fixed defaults:
`price_direction` becomes "none", `rank_change` becomes 0, and the sparkline
becomes the empty sequence, so every emitted summary has a defined direction,
rank change and sparkline. -/
theorem buildSource_default_annotations (name : String) (sides : SourceSides)
    (out : AggregatedSource) (r : PriceRecord)
    (h : buildSource name (.obj sides) = some out)
    (hr : trackingRecord sides = some r)
    (hd : r.price_direction = none) (hrc : r.rank_change = none)
    (hsp : r.sparkline_7d = none) :
    out.priceDirection = PriceDirection.none ∧ out.rankChange = 0 ∧
    out.sparkline7d = [] := by
  obtain ⟨r', hr', h1, h2, h3, -⟩ := buildSource_tracking name sides out h
  rw [hr] at hr'
  cases hr'
  simp [h1, h2, h3, hd, hrc, hsp]

/-- Witness for C10, at a buy-only side map whose record has all tracking
fields null: the emitted summary has direction "none", rank change 0 and an
empty sparkline. -/
theorem buildSource_default_annotations_witness :
    trackingRecord bareBuySides = some bareRecord ∧
    bareRecord.price_direction = none ∧
    (∃ out, buildSource "x" (.obj bareBuySides) = some out ∧
      out.priceDirection = PriceDirection.none ∧ out.rankChange = 0 ∧
      out.sparkline7d = []) := by
  refine ⟨rfl, rfl, _, rfl, ?_⟩
  exact buildSource_default_annotations "x" bareBuySides _ bareRecord
    rfl rfl rfl rfl rfl

/-- A record whose payload price was non-numeric, so `Number(...)` produced
`NaN`. -/
def nanPriceRecord : PriceRecord :=
  { price := JNum.nan, created_at := "t", price_direction := some .up,
    rank_change := some 1, sparkline_7d := some [1], change_1h := none,
    change_24h := none, change_7d := none }

/-- A side map holding only the NaN-priced buy record. -/
def nanBuySides : SourceSides :=
  { buy := some nanPriceRecord, sell := none, default := none }

/-- Claim C7 (counterexample): a source whose only record has a non-numeric
price is *not* skipped by the aggregation — it is emitted as a summary whose
unified price is `NaN`. -/
theorem aggregatedSources_nan_not_skipped :
    (aggregatedSources [("badsrc", .obj nanBuySides)]).map
      (fun s => (s.source, s.averagePrice)) = [("badsrc", JNum.nan)] := by
  simp [aggregatedSources, sortSources, List.filterMap_cons,
    buildSource, nanBuySides, nanPriceRecord]

/-- Claim C7 (amended): aggregation never fails and is total — a malformed
(null / non-object) side map is skipped without aborting and aggregation
proceeds for every remaining source, and the output never exceeds the input
in size (worst case it is empty); but an entry with a non-numeric price is
*not* skipped: it is emitted with `NaN` unified price. -/
theorem aggregatedSources_total :
    (∀ (name : String) (rest : List (String × SidesVal)),
      aggregatedSources ((name, SidesVal.malformed) :: rest)
        = aggregatedSources rest)
    ∧ (∀ m : List (String × SidesVal),
      (aggregatedSources m).length ≤ m.length)
    ∧ (∀ (name : String) (r : PriceRecord), r.price = JNum.nan →
      (buildSource name (.obj { buy := some r, sell := none, default := none })).map
        (fun o => o.averagePrice) = some JNum.nan) := by
  refine ⟨?_, ?_, ?_⟩
  · intro name rest
    simp [aggregatedSources, List.filterMap_cons, buildSource]
  · intro m
    simp only [aggregatedSources, sortSources, List.length_mergeSort]
    exact List.length_filterMap_le _ _
  · intro name r hp
    simp [buildSource, hp]

/-- Witness for C7's amended theorem: the malformed-entry equation at a
concrete one-entry map, and the NaN pass-through at the concrete NaN record. -/
theorem aggregatedSources_total_witness :
    aggregatedSources [("junk", SidesVal.malformed)] = aggregatedSources []
    ∧ nanPriceRecord.price = JNum.nan
    ∧ (buildSource "badsrc" (.obj nanBuySides)).map
        (fun o => o.averagePrice) = some JNum.nan :=
  ⟨aggregatedSources_total.1 "junk" [],
    rfl,
    aggregatedSources_total.2.2 "badsrc" nanPriceRecord rfl⟩

/-- `List.merge` only inspects the relation on pairs drawn from its two
arguments, so two relations that agree there produce the same merge. -/
theorem merge_congr {α : Type} {le le' : α → α → Bool} (xs ys : List α)
    (h : ∀ a ∈ xs, ∀ b ∈ ys, le a b = le' a b) :
    List.merge xs ys le = List.merge xs ys le' := by
  induction xs generalizing ys with
  | nil => simp
  | cons x xs ihx =>
    induction ys with
    | nil => simp
    | cons y ys ihy =>
      rw [List.cons_merge_cons, List.cons_merge_cons,
        ← h x (List.mem_cons_self x xs) y (List.mem_cons_self y ys)]
      split
      · rw [ihx (y :: ys) fun a ha b hb => h a (List.mem_cons_of_mem x ha) b hb]
      · rw [ihy fun a ha b hb => h a ha b (List.mem_cons_of_mem y hb)]

/-- `List.mergeSort` likewise only inspects the relation on pairs drawn from
the input list. -/
theorem mergeSort_congr {α : Type} {le le' : α → α → Bool} :
    ∀ (l : List α), (∀ a ∈ l, ∀ b ∈ l, le a b = le' a b) →
      l.mergeSort le = l.mergeSort le'
  | [], _ => by simp
  | [a], _ => by simp
  | a :: b :: xs, h => by
    have hm1 : ∀ x ∈ (List.splitInTwo ⟨a :: b :: xs, rfl⟩).1.1,
        x ∈ a :: b :: xs := by
      intro x hx
      simp only [List.splitInTwo_fst] at hx
      exact List.mem_of_mem_take hx
    have hm2 : ∀ x ∈ (List.splitInTwo ⟨a :: b :: xs, rfl⟩).2.1,
        x ∈ a :: b :: xs := by
      intro x hx
      simp only [List.splitInTwo_snd] at hx
      exact List.mem_of_mem_drop hx
    have h1 : (List.splitInTwo ⟨a :: b :: xs, rfl⟩).1.1.length
        < xs.length + 1 + 1 := by
      simp [List.splitInTwo_fst]; omega
    have h2 : (List.splitInTwo ⟨a :: b :: xs, rfl⟩).2.1.length
        < xs.length + 1 + 1 := by
      simp [List.splitInTwo_snd]; omega
    simp only [List.mergeSort]
    rw [mergeSort_congr _ fun x hx y hy => h x (hm1 x hx) y (hm1 y hy),
      mergeSort_congr _ fun x hx y hy => h x (hm2 x hx) y (hm2 y hy)]
    exact merge_congr _ _ fun x hx y hy =>
      h x (hm1 x (List.mem_mergeSort.mp hx)) y (hm2 y (List.mem_mergeSort.mp hy))
termination_by l => l.length

/-- Proof-only comparison: descending order on the rational values of the
prices.  It is globally transitive and total, and it agrees with the
comparator-induced `lePrice` on summaries whose prices are finite. -/
def leVal (a b : AggregatedSource) : Bool :=
  decide (b.averagePrice.val ≤ a.averagePrice.val)

theorem lePrice_eq_leVal {a b : AggregatedSource}
    (ha : a.averagePrice.isFin = true) (hb : b.averagePrice.isFin = true) :
    lePrice a b = leVal a b := by
  cases hpa : a.averagePrice with
  | nan => rw [hpa] at ha; simp [JNum.isFin] at ha
  | fin qa =>
    cases hpb : b.averagePrice with
    | nan => rw [hpb] at hb; simp [JNum.isFin] at hb
    | fin qb =>
      simp only [lePrice, leVal, hpa, hpb, JNum.sub, JNum.pos, JNum.val]
      by_cases hq : qb ≤ qa
      · have hns : ¬ (0 : ℚ) < qb - qa := by simpa using sub_nonpos.mpr hq
        simp [hq, hns]
      · have hps : (0 : ℚ) < qb - qa := sub_pos.mpr (lt_of_not_le hq)
        simp [hq, hps]

theorem leVal_trans (a b c : AggregatedSource) :
    leVal a b → leVal b c → leVal a c := by
  intro hab hbc
  simp only [leVal, decide_eq_true_eq] at *
  exact le_trans hbc hab

theorem leVal_total (a b : AggregatedSource) : leVal a b || leVal b a := by
  simp only [leVal, Bool.or_eq_true, decide_eq_true_eq]
  exact le_total _ _

/-- Claim C2: the ranking operation is a stable descending sort of the
aggregator's output by unified price: the result is a permutation of its
input; for all positions `i < j` the price at `i` is at least the price at
`j`; two entries with equal unified price keep their original relative order;
and the displayed rank is the 1-based index after the sort. -/
theorem sortSources_ranking (l : List AggregatedSource)
    (hfin : ∀ s ∈ l, s.averagePrice.isFin = true) :
    (sortSources l).Perm l
    ∧ (∀ (i j : Nat) (hi : i < (sortSources l).length)
        (hj : j < (sortSources l).length), i < j →
        ((sortSources l).get ⟨j, hj⟩).averagePrice.val
          ≤ ((sortSources l).get ⟨i, hi⟩).averagePrice.val)
    ∧ (∀ a b, List.Sublist [a, b] l → a.averagePrice = b.averagePrice →
        List.Sublist [a, b] (sortSources l))
    ∧ (rankedSources l).map Prod.snd = sortSources l
    ∧ (rankedSources l).map Prod.fst
        = (List.range l.length).map (fun i => i + 1) := by
  have hcongr : sortSources l = l.mergeSort leVal :=
    mergeSort_congr l fun a ha b hb => lePrice_eq_leVal (hfin a ha) (hfin b hb)
  refine ⟨List.mergeSort_perm l lePrice, ?_, ?_, ?_, ?_⟩
  · have hs := List.sorted_mergeSort leVal_trans leVal_total l
    have hp : (sortSources l).Pairwise
        (fun a b => b.averagePrice.val ≤ a.averagePrice.val) := by
      rw [hcongr]
      exact hs.imp fun h => by simpa [leVal] using h
    rw [List.pairwise_iff_get] at hp
    intro i j hi hj hij
    exact hp ⟨i, hi⟩ ⟨j, hj⟩ hij
  · intro a b hsub heq
    rw [hcongr]
    exact List.pair_sublist_mergeSort leVal_trans leVal_total
      (by simp [leVal, heq]) hsub
  · simp only [rankedSources, List.map_map]
    have he : (Prod.snd ∘ fun p : Nat × AggregatedSource => (p.1 + 1, p.2))
        = Prod.snd := rfl
    rw [he, List.enum_map_snd]
  · simp only [rankedSources, List.map_map]
    have he : (Prod.fst ∘ fun p : Nat × AggregatedSource => (p.1 + 1, p.2))
        = (fun n => n + 1) ∘ Prod.fst := rfl
    rw [he, ← List.map_map, List.enum_map_fst]
    simp [sortSources, List.length_mergeSort]

/-- A concrete summary with unified price 5. -/
def summaryA : AggregatedSource :=
  { source := "a", averagePrice := JNum.fin 5, buyPrice := none,
    sellPrice := none, hasSides := false, timestamp := "t",
    priceDirection := .none, rankChange := 0, sparkline7d := [],
    change1h := none, change24h := none, change7d := none }

/-- A concrete summary with unified price 7. -/
def summaryB : AggregatedSource :=
  { summaryA with source := "b", averagePrice := JNum.fin 7 }

/-- Witness for C2, at the two-element list `[summaryA, summaryB]` (prices 5
and 7, both finite): the sort is a permutation of the input and the displayed
ranks are `[1, 2]`. -/
theorem sortSources_ranking_witness :
    (∀ s ∈ [summaryA, summaryB], s.averagePrice.isFin = true)
    ∧ (sortSources [summaryA, summaryB]).Perm [summaryA, summaryB]
    ∧ (rankedSources [summaryA, summaryB]).map Prod.fst = [1, 2] := by
  have h := sortSources_ranking [summaryA, summaryB] (by decide)
  refine ⟨by decide, h.1, ?_⟩
  rw [h.2.2.2.2]
  decide
